import Mathlib

/-!
Verification development for the `wral` write-ahead-log crate.

Shallow embedding of the journal subsystem: each Lean definition below is a
direct translation of the corresponding Rust item in `src/`.  File I/O and the
CBOR codec (the external `mkit` crate) are treated as oracles, passed in as
explicit function parameters, exactly as the specification treats them
("the CBOR encoder/decoder library (treated as an oracle mapping
values ↔ bytes)").  Machine integers (`u64`, `usize`) are modelled as `Nat`;
the one place where wrap-around matters (the atomic `fetch_add` on the
sequence-number counter) carries an explicit `% 2^64`.
-/

namespace Wral

/-- Size of the `u64` domain; `AtomicU64::fetch_add` wraps modulo this. -/
def U64SIZE : Nat := 2 ^ 64

/-- Largest `u64` value, `u64::MAX`. -/
def U64MAX : Nat := 2 ^ 64 - 1

/-- Error kinds of `src/lib.rs` (`enum Error`).  Each Rust variant carries two
strings (location prefix and message) that only feed `Display`; they are
dropped here.  Note the taxonomy has no `Corrupt` variant: CBOR decode
failures arrive as `FailCbor` through `From<mkit::Error>`. -/
inductive Err where
  | failConvert
  | failCbor
  | ioError
  | fatal
  | invalid
  | ipcFail
  | threadFail
deriving DecidableEq, Repr

/-! ### src/entry.rs -/

/-- Single Op-entry in the write-ahead-log (`entry.rs`, `struct Entry`):
a sequence number and an opaque byte payload (`Vec<u8>` as `List Nat`). -/
structure Entry where
  seqno : Nat
  op : List Nat
deriving DecidableEq, Repr

namespace Entry

/-- Constructor `Entry::new(seqno, op)` (entry.rs line 53). -/
def new (seqno : Nat) (op : List Nat) : Entry := ⟨seqno, op⟩

/-- Accessor `Entry::to_seqno` (entry.rs line 58). -/
def to_seqno (e : Entry) : Nat := e.seqno

/-- Destructor `Entry::unwrap` (entry.rs line 63). -/
def unwrap (e : Entry) : Nat × List Nat := (e.seqno, e.op)

end Entry

/-! ### src/files.rs -/

/-- Format `{:03}`: decimal representation of `num`, left-padded with zeros
to at least three characters. -/
def pad3 (n : Nat) : String :=
  let s := toString n
  if s.length ≥ 3 then s else String.mk (List.replicate (3 - s.length) '0') ++ s

/-- Translation of `files::make_filename` (files.rs lines 5-9):
`format!("{}-journal-{:03}.dat", name, num)`. -/
def make_filename (name : String) (num : Nat) : String :=
  name ++ "-journal-" ++ pad3 num ++ ".dat"

/-- Model of Rust `Path::file_stem` / `Path::extension` applied to a bare file
name (no directory separators, which is the shape `make_filename` produces):
the extension is the part after the last `.`; a file name with no `.`, or
whose only `.` is the leading character (a hidden file such as `".dat"`),
has no extension.  Returns `(stem, extension)`. -/
def fileStemExt (fname : String) : Option (String × String) :=
  let ps := fname.splitOn "."
  match ps with
  | [] => none
  | [_] => none
  | _ :: _ :: _ =>
    let ext := ps.getLastD ""
    let stem := String.intercalate "." (ps.dropLast)
    if stem = "" then none else some (stem, ext)

/-- Final slice match of `unwrap_filename` (files.rs lines 31-37):
`match parts[..] { [name, "journal", num] => …, _ => None }`.
The pattern demands exactly three elements, the middle one literally
`"journal"`, and parses the third as an unsigned integer. -/
def matchTail (parts : List String) : Option (String × Nat) :=
  match parts with
  | [name, j, num] =>
    if j = "journal" then (num.toNat?).map (fun n => (name, n)) else none
  | _ => none

/-- Translation of `files::unwrap_filename` (files.rs lines 11-38).
After checking the `.dat` extension, the stem is split on `-`; when there are
exactly 3 parts the first is removed as the name, when there are `n > 3`
parts the first `n - 2` are drained and re-joined as the name — in both
branches the remaining `parts` vector has exactly 2 elements — and the
result is matched against the 3-element pattern `[name, "journal", num]`. -/
def unwrap_filename (file : String) : Option (String × Nat) :=
  match fileStemExt file with
  | none => none
  | some (stem, ext) =>
    if ext = "dat" then
      let parts := stem.splitOn "-"
      let n := parts.length
      let split : Option (String × List String) :=
        if n = 3 then some (parts.headD "", parts.drop 1)
        else if n > 3 then
          some (String.intercalate "-" (parts.take (n - 2)), parts.drop (n - 2))
        else none
      match split with
      | none => none
      | some (_, rest) => matchTail rest
    else none

/-- Translation of `files::next_filename` (files.rs lines 40-43): unwraps the
file name (panicking on `None` — modelled as `Option`) and re-encodes with
the saturating successor number. -/
def next_filename (file : String) : Option String :=
  (unwrap_filename file).map (fun p => make_filename p.1 (p.2 + 1))

/-! ### src/batch.rs -/

/-- Index of one batch on disk (`batch.rs`, `struct Index`). -/
structure Index where
  fpos : Nat
  length : Nat
  first_seqno : Nat
  last_seqno : Nat
deriving DecidableEq, Repr

/-- Constructor `Index::new` (batch.rs line 206). -/
def Index.new (fpos length first_seqno last_seqno : Nat) : Index :=
  ⟨fpos, length, first_seqno, last_seqno⟩

/-- Batch of entries on disk or in memory (`batch.rs`, `struct Batch`).
`state` is the caller state already serialized to CBOR bytes. -/
structure Batch where
  first_seqno : Nat
  last_seqno : Nat
  state : List Nat
  entries : List Entry
deriving DecidableEq, Repr

/-- Accessor `Batch::to_state` (batch.rs line 166). -/
def Batch.to_state (b : Batch) : List Nat := b.state

/-- Accessor `Batch::to_first_seqno` (batch.rs line 171). -/
def Batch.to_first_seqno (b : Batch) : Nat := b.first_seqno

/-- Accessor `Batch::to_last_seqno` (batch.rs line 176). -/
def Batch.to_last_seqno (b : Batch) : Nat := b.last_seqno

/-- A journal file handle, reduced to what the embedded operations touch:
its byte content (`metadata().len()` is `bytes.length`) and a count of the
`sync_all` (fsync) calls issued on it. -/
structure FileM where
  bytes : List Nat
  syncs : Nat
deriving DecidableEq, Repr

/-- Translation of `util::sync_write` (util.rs lines 20-27) on the in-model
file: one `write` call appending the whole buffer, then — unconditionally —
`file.sync_all()`.  The function takes no fsync flag: the source consults no
configuration here.  (The partial-write and I/O-failure branches abort before
any state change and are outside this model of a successful write.) -/
def sync_write (file : FileM) (data : List Nat) : FileM × Nat :=
  ({ bytes := file.bytes ++ data, syncs := file.syncs + 1 }, data.length)

/-- In-memory builder owned by an Active journal (`batch.rs`,
`struct Worker`). -/
structure Worker (S : Type) where
  index : List Index
  entries : List Entry
  state : S

/-- Constructor `Worker::new` (batch.rs line 25). -/
def Worker.new {S : Type} (state : S) : Worker S := ⟨[], [], state⟩

/-- Translation of `Worker::add_entry` (batch.rs lines 33-40): run the
`State` callback `on_add_entry` (modelled as `onAdd : S → Entry → Option S`,
`none` meaning the callback returned an error); on success push the entry.
On failure the builder is unchanged and the error surfaces. -/
def Worker.add_entry {S : Type} (onAdd : S → Entry → Option S)
    (w : Worker S) (e : Entry) : Option (Worker S) :=
  match onAdd w.state e with
  | none => none
  | some s => some { w with state := s, entries := w.entries ++ [e] }

/-- Translation of `Worker::flush` (batch.rs lines 42-69).  `senc` is the
CBOR-encoding oracle for the caller state (`util::encode_cbor(state)`), `enc`
the one for the sealed batch.  With no pending entries it returns `None`
without touching the file; otherwise it seals a `Batch`, writes its encoding
with a single `sync_write` (which always issues the fsync barrier) and
records the `Index`. -/
def Worker.flush {S : Type} (senc : S → List Nat) (enc : Batch → List Nat)
    (w : Worker S) (file : FileM) : Worker S × FileM × Option Index :=
  let fpos := file.bytes.length
  match w.entries with
  | [] => (w, file, none)
  | e0 :: rest =>
    let batch : Batch :=
      { first_seqno := e0.to_seqno
        last_seqno := ((e0 :: rest).getLast (by simp)).to_seqno
        state := senc w.state
        entries := e0 :: rest }
    let data := enc batch
    let wr := sync_write file data
    let idx := Index.new fpos data.length batch.first_seqno batch.last_seqno
    ({ w with entries := [], index := w.index ++ [idx] }, wr.1, some idx)

/-- Translation of `Batch::from_index` (batch.rs lines 157-163).
`readExact fpos length` models `seek(fpos)` followed by `read_exact` of
`length` bytes (`none` = I/O failure → `Error::IOError`); `dec` models
`Cbor::decode` + `Batch::from_cbor` on the buffer (`none` = decode failure,
which `From<mkit::Error>` maps to `Error::FailCbor`).  The byte count
returned by the decoder is bound to `_` and discarded: no comparison against
`index.length` is made. -/
def Batch.from_index (readExact : Nat → Nat → Option (List Nat))
    (dec : List Nat → Option (Batch × Nat)) (index : Index) :
    Except Err Batch :=
  match readExact index.fpos index.length with
  | none => .error .ioError
  | some buf =>
    match dec buf with
    | none => .error .failCbor
    | some (value, _) => .ok value

/-! ### src/journal.rs -/

/-- Decode loop of `Journal::load_archive` (journal.rs lines 76-92), walked
with explicit fuel.  `dec fpos` is the oracle for `Cbor::decode` of the file
suffix starting at `fpos` together with `Batch::from_cbor` (`none` = decode
failure).  While `fpos < len`, a decode failure makes the whole load return
`None` (the `.ok()?` in the source); a decoded batch of `n` bytes pushes
`Index::new(fpos, n, first, last)`, replaces the running `state` bytes and
advances `fpos` by `n`.  Exhausted fuel (only reachable when a decode step
consumes zero bytes, where the source would loop forever) also yields
`none`. -/
def loadLoop (dec : Nat → Option (Batch × Nat)) (len : Nat) :
    Nat → Nat → List Index → List Nat → Option (List Index × List Nat)
  | 0, fpos, index, state =>
    if fpos < len then none else some (index, state)
  | fuel + 1, fpos, index, state =>
    if fpos < len then
      match dec fpos with
      | none => none
      | some (b, n) =>
        loadLoop dec len fuel (fpos + n)
          (index ++ [Index.new fpos n b.to_first_seqno b.to_last_seqno])
          b.to_state
    else some (index, state)

/-- Translation of `Journal::load_archive` (journal.rs lines 63-125), with
the file-name and name checks already passed and the file content abstracted
by the oracles.  After the decode loop: zero decoded batches → `None`;
otherwise the accumulated state bytes are decoded (`sdec` models
`Cbor::decode` + `S::from_cbor`, `none` = corrupt state → `None`).  Returns
the archive index list plus the decoded state. -/
def load_archive {S : Type} (dec : Nat → Option (Batch × Nat))
    (sdec : List Nat → Option S) (len : Nat) : Option (List Index × S) :=
  match loadLoop dec len (len + 1) 0 [] [] with
  | none => none
  | some (index, state) =>
    if index.length = 0 then none
    else
      match sdec state with
      | none => none
      | some s => some (index, s)

/-! ### src/writer.rs -/

/-- State threaded through one drain cycle of `MainLoop::run`
(writer.rs lines 121-156): the atomic `next_seqno` counter, the Active
journal's builder state, the entries accumulated in the builder, the
`items` vector of assigned seqnos, and whether the cycle is still running
without error. -/
structure RunState (S : Type) where
  counter : Nat
  state : S
  entries : List Entry
  items : List Nat
  ok : Bool

/-- Model of `AtomicU64::fetch_add(1, SeqCst)` executed by the single
coordinator thread: returns the previous value and stores the successor
modulo `2^64`. -/
def fetch_add_1 (c : Nat) : Nat × Nat := (c, (c + 1) % U64SIZE)

/-- The per-request body of the drain loop (writer.rs lines 136-144): for
each `AddEntry { op }`, allocate `seqno = fetch_add(next_seqno, 1)`, call
`journal.add_entry(Entry::new(seqno, op))` — which runs the `State`
callback and, on failure, aborts the whole cycle through `?` with the
counter already advanced — and on success push the assigned seqno onto
`items`. -/
def processReqs {S : Type} (onAdd : S → Entry → Option S) :
    RunState S → List (List Nat) → RunState S
  | rs, [] => rs
  | rs, op :: rest =>
    let fa := fetch_add_1 rs.counter
    let seqno := fa.1
    match onAdd rs.state (Entry.new seqno op) with
    | none => { rs with counter := fa.2, ok := false }
    | some s =>
      processReqs onAdd
        { rs with
            counter := fa.2
            state := s
            entries := rs.entries ++ [Entry.new seqno op]
            items := rs.items ++ [seqno] }
        rest

/-- Several consecutive drain cycles of `MainLoop::run`, each processing one
drained request vector; the seqnos replied to the callers are the
concatenated `items` of the cycles (writer.rs lines 147-151 send them in
order).  A failed cycle (error propagated by `?`) stops the loop. -/
def runCycles {S : Type} (onAdd : S → Entry → Option S) :
    RunState S → List (List (List Nat)) → RunState S
  | rs, [] => rs
  | rs, cycle :: rest =>
    let rs' := processReqs onAdd rs cycle
    if rs'.ok then runCycles onAdd rs' rest else rs'

/-- Reply loop of `MainLoop::run` (writer.rs lines 147-151): each item is an
assigned seqno with `Option Bool` modelling its reply channel — `none` when
the request carried no channel (skipped), `some true` when `tx.send`
succeeds, `some false` when it fails.  A failed send becomes
`err_at!(IPCFail, …)?`, which returns the error immediately: no further
items are sent.  Returns the seqnos actually delivered and `none` on
success or the propagated error. -/
def sendReplies : List (Nat × Option Bool) → List Nat × Option Err
  | [] => ([], none)
  | (_, none) :: rest => sendReplies rest
  | (s, some true) :: rest =>
    let r := sendReplies rest
    (s :: r.1, r.2)
  | (_, some false) :: _ => ([], some .ipcFail)

/-- Reply phase across consecutive drain cycles: an error returned by
`MainLoop::run` terminates the writer thread, so cycles after a failed send
are never processed. -/
def runReplyCycles : List (List (Nat × Option Bool)) → List Nat × Option Err
  | [] => ([], none)
  | cycle :: rest =>
    let r := sendReplies cycle
    match r.2 with
    | none =>
      let r2 := runReplyCycles rest
      (r.1 ++ r2.1, r2.2)
    | some e => (r.1, some e)

/-! ### src/wral.rs -/

/-- Configuration for the `Wral` type (wral.rs, `struct Config`); `dir` and
the timing field are irrelevant to the embedded operations. -/
structure Config where
  name : String
  journal_limit : Nat
  batch_size : Nat
  fsync : Bool
deriving DecidableEq, Repr

/-- Rust `ops::Bound<u64>` as used by `Wral::range`. -/
inductive Bnd where
  | unbounded
  | included (n : Nat)
  | excluded (n : Nat)
deriving DecidableEq, Repr

/-- Start-bound arm of `Wral::range_bound_to_range_inclusive`
(wral.rs lines 298-303). -/
def start_bound_norm : Bnd → Option Nat
  | .excluded s => if s < U64MAX then some (s + 1) else none
  | .included s => some s
  | .unbounded => some 0

/-- End-bound arm of `Wral::range_bound_to_range_inclusive`
(wral.rs lines 304-309). -/
def end_bound_norm : Bnd → Option Nat
  | .excluded 0 => none
  | .excluded e => some (e - 1)
  | .included e => some e
  | .unbounded => some U64MAX

/-- Translation of `Wral::range_bound_to_range_inclusive`
(wral.rs lines 294-311): both arms must normalize (`?`), producing the
closed range `start..=end`. -/
def range_bound_to_range_inclusive (sb eb : Bnd) : Option (Nat × Nat) :=
  match start_bound_norm sb with
  | none => none
  | some s =>
    match end_bound_norm eb with
    | none => none
    | some e => some (s, e)

/-- Journal-list construction in `Wral::range` (wral.rs lines 272-286): when
the bounds normalize, one `RdJournal` (built by the oracle `mk`) per archived
journal plus one for the active journal; when either bound is `None`, the
empty vector. -/
def rangeJournals {J R : Type} (mk : J → R) (archives : List J) (active : J)
    (sb eb : Bnd) : List R :=
  match range_bound_to_range_inclusive sb eb with
  | some _ => archives.map mk ++ [mk active]
  | none => []

/-- Iterator state of `wral::Iter` (wral.rs lines 314-317), with each
`RdJournal` abstracted to its remaining stream of items. -/
structure IterM (β : Type) where
  journal : Option (List β)
  journals : List (List β)

/-- Inner loop of `Iter::next` (wral.rs lines 322-343): pull from the
current journal; when exhausted, move to the next journal; `none` when no
journals remain. -/
def iterNextLoop {β : Type} : List β → List (List β) → Option (β × IterM β)
  | x :: xs, js => some (x, ⟨some xs, js⟩)
  | [], [] => none
  | [], j :: js => iterNextLoop j js

/-- Translation of `Iter::next` (wral.rs lines 319-344). -/
def IterM.next {β : Type} (it : IterM β) : Option (β × IterM β) :=
  match it.journal with
  | some j => iterNextLoop j it.journals
  | none =>
    match it.journals with
    | [] => none
    | j :: js => iterNextLoop j js

/-- Tail computation of `Wral::load` (wral.rs lines 170-178): the loaded
journals — `(journal-number, last_seqno, state)` triples — are sorted by
`last_seqno`; the last one (if any) supplies `(seqno, num, state)`, the
empty case supplies `(0, 0, S::default())`; then `seqno += 1` and
`num = num.saturating_add(1)` number the fresh Active journal. -/
def load_params {S : Type} (dflt : S) (journals : List (Nat × Nat × S)) :
    Nat × Nat × S :=
  let sorted := journals.mergeSort (fun a b => a.2.1 ≤ b.2.1)
  let base :=
    match sorted.getLast? with
    | some (num, seqno, state) => (seqno, num, state)
    | none => (0, 0, dflt)
  (base.1 + 1, base.2.1 + 1, base.2.2)

/-- Journal number of the first Active journal made by `Wral::create`
(wral.rs line 126: `let num = 0`). -/
def create_initial_num : Nat := 0

/-- Initial sequence number installed by `Wral::create`
(wral.rs line 131: `let seqno = 1`). -/
def create_initial_seqno : Nat := 1

/-! ### Concrete oracle instances used to evaluate the model -/

/-- Initial `RunState` of the coordinator: counter at `c0`, builder holding
`s0`, nothing accumulated, no error. -/
def RunState.init {S : Type} (c0 : Nat) (s0 : S) : RunState S :=
  ⟨c0, s0, [], [], true⟩

/-- A two-entry batch, the only good record of the corrupt-tail file. -/
def c2batch1 : Batch := ⟨1, 2, [7], [Entry.new 1 [10], Entry.new 2 [11]]⟩

/-- Decode oracle of a 6-byte journal file whose first 5 bytes form one
well-formed batch and whose last byte fails CBOR decoding. -/
def c2dec : Nat → Option (Batch × Nat) :=
  fun p => if p = 0 then some (c2batch1, 5) else none

/-- State-decode oracle: empty state bytes fail (as `Cbor::decode` does on
an empty slice), anything else decodes to itself. -/
def c2sdec : List Nat → Option (List Nat) :=
  fun bs => if bs = [] then none else some bs

/-- First batch of the clean two-batch file. -/
def c2batchA : Batch := ⟨1, 1, [7], [Entry.new 1 [10]]⟩

/-- Second batch of the clean two-batch file. -/
def c2batchB : Batch := ⟨2, 2, [8], [Entry.new 2 [11]]⟩

/-- Decode oracle of a 6-byte journal file consisting of two well-formed
3-byte batches. -/
def c2cleanDec : Nat → Option (Batch × Nat) :=
  fun p => if p = 0 then some (c2batchA, 3) else if p = 3 then some (c2batchB, 3) else none

/-- Read oracle whose `read_exact` always succeeds with a zero buffer of the
requested length. -/
def c5read : Nat → Nat → Option (List Nat) :=
  fun _ len => some (List.replicate len 0)

/-- The batch decoded in the `from_index` counterexample. -/
def c5batch : Batch := ⟨1, 1, [], [Entry.new 1 [9]]⟩

/-- Decode oracle reporting that only 3 of the supplied bytes were consumed
by the decoded batch. -/
def c5dec : List Nat → Option (Batch × Nat) := fun _ => some (c5batch, 3)

/-- Three `add_op` requests drained in two coordinator cycles. -/
def c6cycles : List (List (List Nat)) := [[[10], [11]], [[12]]]

/-- A `State` callback that errors exactly on the entry with seqno 2. -/
def c8onAdd : Unit → Entry → Option Unit :=
  fun _ e => if e.seqno = 2 then none else some ()

/-- Positions of the decode loop of `load_archive` reachable from `p` by
successful decode steps: `Reaches dec p q` says the loop cursor starting at
`p` eventually sits at `q`. -/
inductive Reaches (dec : Nat → Option (Batch × Nat)) : Nat → Nat → Prop
  | refl (p : Nat) : Reaches dec p p
  | step {p q : Nat} (b : Batch) (n : Nat) :
      dec p = some (b, n) → Reaches dec (p + n) q → Reaches dec p q

/-! ## Theorems -/

/-- The 3-element slice pattern of `unwrap_filename` cannot match the
2-element `parts` vector left by either branch of the name extraction. -/
lemma matchTail_len_two (l : List String) (h : l.length = 2) : matchTail l = none := by
  match l, h with
  | [a, b], _ => rfl

/-- Every input is rejected by `unwrap_filename`: both name-extraction
branches leave exactly 2 parts, so the final 3-element match always falls
through to `None`. -/
lemma unwrap_filename_eq_none (file : String) : unwrap_filename file = none := by
  unfold unwrap_filename
  cases hse : fileStemExt file with
  | none => rfl
  | some se =>
    obtain ⟨stem, ext⟩ := se
    by_cases hd : ext = "dat"
    · simp only [hd, if_pos rfl]
      set parts := stem.splitOn "-" with hparts
      by_cases h3 : parts.length = 3
      · simp only [h3, if_pos rfl]
        apply matchTail_len_two
        simp [List.length_drop, h3]
      · by_cases hgt : parts.length > 3
        · simp only [h3, if_neg h3, hgt, if_pos hgt]
          apply matchTail_len_two
          simp only [List.length_drop]
          omega
        · simp [h3, hgt]
    · simp [hd]

/-- C1: the spec claims `unwrap_filename (make_filename name num)` returns
`Some (name, num)` for every name and journal number.  In the code the final
slice pattern `[name, "journal", num]` demands three parts while both
name-extraction branches leave exactly two, so decoding fails on every
input — in particular on the encoder's own output. -/
theorem C1_filename_roundtrip_broken :
    unwrap_filename (make_filename "my-dlog" 1) = none ∧
    ∀ file : String, unwrap_filename file = none :=
  ⟨unwrap_filename_eq_none _, unwrap_filename_eq_none⟩

/-- C10: `Entry::new(seqno, op).unwrap()` returns exactly `(seqno, op)` and
`to_seqno` on the constructed entry returns `seqno`; all three operations
are total (no failure mode in their types). -/
theorem C10_entry_roundtrip :
    ∀ (seqno : Nat) (op : List Nat),
      (Entry.new seqno op).unwrap = (seqno, op) ∧
      (Entry.new seqno op).to_seqno = seqno :=
  fun _ _ => ⟨rfl, rfl⟩

/-- C9: when `Wral::load` finds no loadable journal (`journals` empty), the
resulting WAL starts at `next_seqno = 1` with the default state and a fresh
Active journal numbered `1`, whereas `Wral::create` numbers its first
journal `0` (and also starts at seqno `1`). -/
theorem C9_load_empty_directory :
    ∀ (S : Type) (dflt : S),
      load_params dflt [] = (1, 1, dflt) ∧
      create_initial_seqno = 1 ∧
      create_initial_num = 0 ∧
      (load_params dflt []).2.1 ≠ create_initial_num := by
  intro S dflt
  refine ⟨?_, rfl, rfl, ?_⟩
  · simp [load_params]
  · simp [load_params, create_initial_num]

/-- C3: the spec claims flush fsyncs iff `Config::fsync` is set.  In the
code the call chain `MainLoop::run → Journal::flush → Worker::flush →
util::sync_write` passes no configuration, and `sync_write` calls
`file.sync_all()` unconditionally: every successful non-empty flush issues
the durability barrier even when `cfg.fsync = false`. -/
theorem C3_flush_fsyncs_unconditionally :
    ∀ (cfg : Config), cfg.fsync = false →
    ∀ (S : Type) (senc : S → List Nat) (enc : Batch → List Nat)
      (w : Worker S) (file : FileM),
      w.entries ≠ [] →
      ((Worker.flush senc enc w file).2.1).syncs = file.syncs + 1 := by
  intro cfg _ S senc enc w file hne
  match hw : w.entries with
  | [] => exact absurd hw hne
  | e0 :: rest =>
    simp [Worker.flush, hw, sync_write]

/-- Witness: a config with fsync disabled and a builder holding one pending
entry; the flush still bumps the file's fsync count from 0 to 1. -/
theorem C3_flush_fsyncs_unconditionally_witness :
    ((Worker.flush (fun _ => [0]) (fun _ => [1, 2])
        (⟨[], [Entry.new 1 [7]], ()⟩ : Worker Unit) ⟨[], 0⟩).2.1).syncs = 0 + 1 :=
  C3_flush_fsyncs_unconditionally ⟨"t", 4096, 1, false⟩ rfl Unit _ _ _ _ (by simp)

/-- C4 counterexample: two drain cycles; in the first, the reply to seqno 1
fails to send and seqno 2's reply is still pending, the second cycle holds
seqno 3.  The spec claims the failure is logged, the remaining requests get
their replies and the loop continues; the code instead propagates `IPCFail`
through `?`, delivering nothing further and ending the loop. -/
theorem C4_send_failure_counterexample :
    runReplyCycles [[(1, some false), (2, some true)], [(3, some true)]]
      = ([], some .ipcFail) := rfl

/-- C4 amended: a failed reply send aborts `MainLoop::run` with `IPCFail`:
the requests before it in the drain window have already received their
seqnos, every request after it gets no reply, and no later drain cycle is
processed. -/
theorem C4_send_failure_aborts_loop :
    ∀ (pre : List Nat) (s : Nat) (rest : List (Nat × Option Bool))
      (cycles : List (List (Nat × Option Bool))),
      runReplyCycles
          ((pre.map (fun p => (p, some true)) ++ (s, some false) :: rest) :: cycles)
        = (pre, some .ipcFail) := by
  intro pre s rest cycles
  have hsend : ∀ pre : List Nat,
      sendReplies (pre.map (fun p => (p, some true)) ++ (s, some false) :: rest)
        = (pre, some Err.ipcFail) := by
    intro pre
    induction pre with
    | nil => rfl
    | cons p ps ih => simp [sendReplies, ih]
  simp [runReplyCycles, hsend]

/-- C7: range normalization — `Unbounded` start maps to 0, `Included s` to
`s`, `Excluded s` to `s + 1` except `None` at `u64::MAX`; `Unbounded` end
maps to `u64::MAX`, `Included e` to `e`, `Excluded e` to `e - 1` except
`None` at 0; and when either side is `None` the journal vector of
`Wral::range` is empty and the iterator yields nothing. -/
theorem C7_range_normalization :
    start_bound_norm .unbounded = some 0 ∧
    (∀ s, start_bound_norm (.included s) = some s) ∧
    (∀ s, s < U64MAX → start_bound_norm (.excluded s) = some (s + 1)) ∧
    start_bound_norm (.excluded U64MAX) = none ∧
    end_bound_norm .unbounded = some U64MAX ∧
    (∀ e, end_bound_norm (.included e) = some e) ∧
    (∀ e, 0 < e → end_bound_norm (.excluded e) = some (e - 1)) ∧
    end_bound_norm (.excluded 0) = none ∧
    (∀ sb eb, (start_bound_norm sb = none ∨ end_bound_norm eb = none) →
      ∀ (J β : Type) (mk : J → List β) (archives : List J) (active : J),
        rangeJournals mk archives active sb eb = [] ∧
        IterM.next (⟨none, rangeJournals mk archives active sb eb⟩ : IterM β) = none) := by
  refine ⟨rfl, fun s => rfl, ?_, ?_, rfl, fun e => rfl, ?_, rfl, ?_⟩
  · intro s hs
    simp [start_bound_norm, hs]
  · simp [start_bound_norm]
  · intro e he
    cases e with
    | zero => omega
    | succ e => rfl
  · intro sb eb h J β mk archives active
    have hn : range_bound_to_range_inclusive sb eb = none := by
      rcases h with h | h
      · simp [range_bound_to_range_inclusive, h]
      · cases hs : start_bound_norm sb <;>
          simp [range_bound_to_range_inclusive, hs, h]
    refine ⟨?_, ?_⟩
    · simp [rangeJournals, hn]
    · simp [rangeJournals, hn, IterM.next]

/-- Witness for the hypotheses of the range-normalization theorem at
concrete bounds. -/
theorem C7_range_normalization_witness :
    start_bound_norm (.excluded 5) = some 6 ∧
    end_bound_norm (.excluded 7) = some 6 ∧
    rangeJournals (fun j => [j]) ([3] : List Nat) 9 (.excluded U64MAX) .unbounded = [] ∧
    IterM.next
        (⟨none, rangeJournals (fun j => [j]) ([3] : List Nat) 9 (.excluded U64MAX) .unbounded⟩ :
          IterM Nat) = none := by
  obtain ⟨-, -, h3, h4, -, -, h7, -, h9⟩ := C7_range_normalization
  have hp := h9 (.excluded U64MAX) .unbounded (Or.inl h4) Nat Nat (fun j => [j]) [3] 9
  exact ⟨h3 5 (by norm_num [U64MAX]), h7 7 (by norm_num), hp.1, hp.2⟩

/-- C5 counterexample: `read_exact` succeeds with the 10 requested bytes but
the decoder reports only 3 bytes consumed; `Batch::from_index` still returns
the batch, with no `Corrupt` (or any) error for the length mismatch. -/
theorem C5_from_index_no_length_check :
    Batch.from_index c5read c5dec (Index.new 0 10 1 1) = .ok c5batch ∧
    (3 : Nat) ≠ (Index.new 0 10 1 1).length :=
  ⟨rfl, by decide⟩

/-- C5 amended: `Batch::from_index` seeks `fpos` and reads exactly `length`
bytes, failing with `IOError` on read failure and with `FailCbor` (the
taxonomy has no `Corrupt` variant) on decode failure; a successful decode is
returned as-is — the decoder's consumed-byte count is discarded and never
compared with `Index.length`. -/
theorem C5_from_index_behavior :
    ∀ (readE : Nat → Nat → Option (List Nat))
      (dec : List Nat → Option (Batch × Nat)) (index : Index),
      (readE index.fpos index.length = none →
        Batch.from_index readE dec index = .error .ioError) ∧
      (∀ buf, readE index.fpos index.length = some buf → dec buf = none →
        Batch.from_index readE dec index = .error .failCbor) ∧
      (∀ buf b n, readE index.fpos index.length = some buf → dec buf = some (b, n) →
        Batch.from_index readE dec index = .ok b) := by
  intro readE dec index
  refine ⟨?_, ?_, ?_⟩
  · intro h
    simp [Batch.from_index, h]
  · intro buf h1 h2
    simp [Batch.from_index, h1, h2]
  · intro buf b n h1 h2
    simp [Batch.from_index, h1, h2]

/-- Witness for the three behavior cases of `from_index` at concrete
oracles (the third with consumed count 3 against `Index.length` 10). -/
theorem C5_from_index_behavior_witness :
    Batch.from_index (fun _ _ => none) c5dec (Index.new 0 10 1 1) = .error .ioError ∧
    Batch.from_index c5read (fun _ => none) (Index.new 0 10 1 1) = .error .failCbor ∧
    Batch.from_index c5read c5dec (Index.new 0 10 1 1) = .ok c5batch :=
  ⟨(C5_from_index_behavior _ _ _).1 rfl,
   (C5_from_index_behavior _ _ _).2.1 _ rfl rfl,
   (C5_from_index_behavior _ _ _).2.2 _ _ _ rfl rfl⟩

/-- Cursor positions reachable by the decode loop are at or after the start
position (each decode step advances by a natural number of bytes). -/
lemma Reaches.le {dec : Nat → Option (Batch × Nat)} {p q : Nat}
    (h : Reaches dec p q) : p ≤ q := by
  induction h with
  | refl p => exact le_rfl
  | step b n hd hr ih => omega

/-- When the decode loop's cursor can reach a position `q` inside the file
at which decoding fails, the whole loop returns `none`, regardless of fuel
and of the batches already indexed. -/
lemma loadLoop_reach_fail (dec : Nat → Option (Batch × Nat)) (len q : Nat)
    (hq : q < len) (hd : dec q = none) :
    ∀ (fuel fpos : Nat) (index : List Index) (state : List Nat),
      Reaches dec fpos q → loadLoop dec len fuel fpos index state = none := by
  intro fuel
  induction fuel with
  | zero =>
    intro fpos index state hr
    have hle := hr.le
    simp only [loadLoop]
    rw [if_pos (by omega)]
  | succ fuel ih =>
    intro fpos index state hr
    cases hr with
    | refl =>
      simp only [loadLoop]
      rw [if_pos hq, hd]
    | step b n hdec hr2 =>
      have hle : fpos ≤ q := (Reaches.step b n hdec hr2).le
      simp only [loadLoop]
      rw [if_pos (by omega), hdec]
      exact ih _ _ _ hr2

/-- C2 counterexample: a 6-byte journal whose first 5 bytes decode to one
well-formed batch and whose final byte fails CBOR decoding.  The spec claims
the load succeeds with the one good batch indexed; `load_archive` instead
returns `None` — the whole journal is skipped. -/
theorem C2_corrupt_tail_counterexample :
    c2dec 0 = some (c2batch1, 5) ∧
    load_archive c2dec c2sdec 6 = none :=
  ⟨rfl, rfl⟩

/-- C2 amended: `load_archive` keeps a journal only if its bytes decode
cleanly end to end — a CBOR decode failure at any position the loop reaches
before `len` makes the load return `None`, discarding even the good leading
batches; a fully decodable file loads with one `Index` per batch and the
last batch's state. -/
theorem C2_decode_failure_skips_journal :
    (∀ (dec : Nat → Option (Batch × Nat)) (sdec : List Nat → Option (List Nat))
        (len q : Nat),
      Reaches dec 0 q → q < len → dec q = none →
      load_archive dec sdec len = none) ∧
    load_archive c2cleanDec c2sdec 6
      = some ([Index.new 0 3 1 1, Index.new 3 3 2 2], [8]) := by
  constructor
  · intro dec sdec len q hr hq hd
    unfold load_archive
    rw [loadLoop_reach_fail dec len q hq hd _ _ _ _ hr]
  · rfl

/-- Witness: the corrupt-tail file reaches position 5 (after the good
batch), decoding fails there, and the journal load returns `None`. -/
theorem C2_decode_failure_skips_journal_witness :
    load_archive c2dec c2sdec 6 = none :=
  C2_decode_failure_skips_journal.1 c2dec c2sdec 6 5
    (Reaches.step c2batch1 5 rfl (Reaches.refl 5)) (by norm_num) rfl

/-- The `u64` domain is non-empty. -/
lemma U64SIZE_pos : 0 < U64SIZE := pow_pos (by norm_num) 64

/-- Behaviour of the drain-loop body when it completes without a callback
error: the `items` vector receives the consecutive seqnos starting at the
incoming counter, the builder's entries carry the same seqnos, and the
counter has advanced by the number of requests (modulo `2^64`). -/
lemma processReqs_ok_spec {S : Type} (onAdd : S → Entry → Option S) :
    ∀ (ops : List (List Nat)) (rs : RunState S),
      rs.ok = true → rs.counter < U64SIZE → rs.counter + ops.length ≤ U64SIZE →
      (processReqs onAdd rs ops).ok = true →
      (processReqs onAdd rs ops).items = rs.items ++ List.range' rs.counter ops.length ∧
      (processReqs onAdd rs ops).entries.map Entry.seqno
        = rs.entries.map Entry.seqno ++ List.range' rs.counter ops.length ∧
      (processReqs onAdd rs ops).counter = (rs.counter + ops.length) % U64SIZE := by
  intro ops
  induction ops with
  | nil =>
    intro rs hok hlt hle _
    simp [processReqs, Nat.mod_eq_of_lt hlt]
  | cons op rest ih =>
    intro rs hok hlt hle hfinal
    cases ho : onAdd rs.state (Entry.new rs.counter op) with
    | none =>
      rw [show processReqs onAdd rs (op :: rest)
            = { rs with counter := (rs.counter + 1) % U64SIZE, ok := false } by
          simp [processReqs, fetch_add_1, ho]] at hfinal
      simp at hfinal
    | some s' =>
      have hle' : rs.counter + (rest.length + 1) ≤ U64SIZE := by simpa using hle
      have hstep : processReqs onAdd rs (op :: rest)
          = processReqs onAdd
              { rs with
                  counter := (rs.counter + 1) % U64SIZE
                  state := s'
                  entries := rs.entries ++ [Entry.new rs.counter op]
                  items := rs.items ++ [rs.counter] } rest := by
        simp [processReqs, fetch_add_1, ho]
      rw [hstep] at hfinal ⊢
      rcases Nat.lt_or_ge (rs.counter + 1) U64SIZE with hc | hc
      · have hmod : (rs.counter + 1) % U64SIZE = rs.counter + 1 := Nat.mod_eq_of_lt hc
        rw [hmod] at hfinal ⊢
        have hrec := ih
          { rs with
              counter := rs.counter + 1
              state := s'
              entries := rs.entries ++ [Entry.new rs.counter op]
              items := rs.items ++ [rs.counter] }
          hok hc (show rs.counter + 1 + rest.length ≤ U64SIZE by omega) hfinal
        refine ⟨?_, ?_, ?_⟩
        · rw [hrec.1]
          simp [List.range'_succ rs.counter rest.length 1, List.append_assoc]
        · rw [hrec.2.1]
          simp [Entry.new, List.range'_succ rs.counter rest.length 1, List.append_assoc]
        · rw [hrec.2.2]
          congr 1
          simp
          omega
      · have hsz : rs.counter + 1 = U64SIZE := by omega
        have hrest : rest = [] := by
          have hlen : rest.length = 0 := by omega
          exact List.eq_nil_of_length_eq_zero hlen
        subst hrest
        refine ⟨?_, ?_, ?_⟩
        · simp [processReqs, List.range'_one]
        · simp [processReqs, Entry.new, List.range'_one]
        · simp [processReqs]

/-- When the `State` callback never fails, the drain loop completes without
error. -/
lemma processReqs_total_ok {S : Type} (onAdd : S → Entry → Option S)
    (h : ∀ s e, (onAdd s e).isSome) :
    ∀ (ops : List (List Nat)) (rs : RunState S), rs.ok = true →
      (processReqs onAdd rs ops).ok = true := by
  intro ops
  induction ops with
  | nil =>
    intro rs hok
    simpa [processReqs] using hok
  | cons op rest ih =>
    intro rs hok
    cases ho : onAdd rs.state (Entry.new rs.counter op) with
    | none =>
      have hsome := h rs.state (Entry.new rs.counter op)
      rw [ho] at hsome
      simp at hsome
    | some s' =>
      rw [show processReqs onAdd rs (op :: rest)
            = processReqs onAdd
                { rs with
                    counter := (rs.counter + 1) % U64SIZE
                    state := s'
                    entries := rs.entries ++ [Entry.new rs.counter op]
                    items := rs.items ++ [rs.counter] } rest by
          simp [processReqs, fetch_add_1, ho]]
      exact ih _ hok

/-- Across consecutive drain cycles with a never-failing callback, the
replied seqnos are exactly the consecutive block starting at the initial
counter value, in processing order. -/
lemma runCycles_spec {S : Type} (onAdd : S → Entry → Option S)
    (h : ∀ s e, (onAdd s e).isSome) :
    ∀ (cycles : List (List (List Nat))) (rs : RunState S),
      rs.ok = true → rs.counter < U64SIZE →
      rs.counter + (cycles.map List.length).sum ≤ U64SIZE →
      (runCycles onAdd rs cycles).items
          = rs.items ++ List.range' rs.counter (cycles.map List.length).sum ∧
      (runCycles onAdd rs cycles).counter
          = (rs.counter + (cycles.map List.length).sum) % U64SIZE ∧
      (runCycles onAdd rs cycles).ok = true := by
  intro cycles
  induction cycles with
  | nil =>
    intro rs hok hlt hle
    simp [runCycles, hok, Nat.mod_eq_of_lt hlt]
  | cons cycle rest ih =>
    intro rs hok hlt hle
    have hle' : rs.counter + (cycle.length + (List.map List.length rest).sum) ≤ U64SIZE := by
      simpa using hle
    have hsum : rs.counter + cycle.length ≤ U64SIZE := by omega
    have hfin := processReqs_total_ok onAdd h cycle rs hok
    have hspec := processReqs_ok_spec onAdd cycle rs hok hlt hsum hfin
    have hrun : runCycles onAdd rs (cycle :: rest)
        = runCycles onAdd (processReqs onAdd rs cycle) rest := by
      simp [runCycles, hfin]
    rw [hrun]
    rcases Nat.lt_or_ge (rs.counter + cycle.length) U64SIZE with hc | hc
    · have hcounter : (processReqs onAdd rs cycle).counter = rs.counter + cycle.length := by
        rw [hspec.2.2]
        exact Nat.mod_eq_of_lt hc
      have hrec := ih (processReqs onAdd rs cycle) hfin
        (by rw [hcounter]; exact hc)
        (by rw [hcounter]; omega)
      refine ⟨?_, ?_, hrec.2.2⟩
      · rw [hrec.1, hspec.1, hcounter]
        have happ := List.range'_append rs.counter cycle.length
          (List.map List.length rest).sum 1
        simp only [one_mul] at happ
        rw [List.append_assoc, happ]
        simp only [List.map_cons, List.sum_cons]
        rw [Nat.add_comm ((List.map List.length rest).sum) cycle.length]
      · rw [hrec.2.1, hcounter]
        simp only [List.map_cons, List.sum_cons]
        congr 1
        omega
    · have hsz : rs.counter + cycle.length = U64SIZE := by omega
      have hrest : (List.map List.length rest).sum = 0 := by omega
      have hrec := ih (processReqs onAdd rs cycle) hfin
        (by rw [hspec.2.2]; exact Nat.mod_lt _ U64SIZE_pos)
        (by
          rw [hrest, Nat.add_zero, hspec.2.2]
          exact (Nat.mod_lt _ U64SIZE_pos).le)
      rw [hrest] at hrec
      refine ⟨?_, ?_, hrec.2.2⟩
      · rw [hrec.1, hspec.1]
        simp [hrest]
      · rw [hrec.2.1, hspec.2.2]
        simp [hrest]

/-- C6: with a never-failing `State` callback and no counter overflow, the
seqnos the coordinator assigns across its drain cycles — one `fetch_add`
per request, in the order requests are popped from the drained vectors —
form the consecutive block starting at the initial counter, hence are
strictly increasing; consequently the seqnos returned to any one handle's
program-ordered `add_op` calls (a subsequence of the processing order) are
strictly increasing as well. -/
theorem C6_seqnos_strictly_increasing :
    ∀ (S : Type) (onAdd : S → Entry → Option S),
      (∀ s e, (onAdd s e).isSome) →
      ∀ (cycles : List (List (List Nat))) (c0 : Nat) (s0 : S),
        c0 < U64SIZE → c0 + (cycles.map List.length).sum ≤ U64SIZE →
        (runCycles onAdd (RunState.init c0 s0) cycles).items
            = List.range' c0 (cycles.map List.length).sum ∧
        List.Pairwise (· < ·) (runCycles onAdd (RunState.init c0 s0) cycles).items ∧
        ∀ sub : List Nat,
          sub.Sublist (runCycles onAdd (RunState.init c0 s0) cycles).items →
          List.Pairwise (· < ·) sub := by
  intro S onAdd h cycles c0 s0 hlt hle
  have hs := runCycles_spec onAdd h cycles (RunState.init c0 s0) rfl hlt hle
  have hitems : (runCycles onAdd (RunState.init c0 s0) cycles).items
      = List.range' c0 (cycles.map List.length).sum := by
    simpa [RunState.init] using hs.1
  have hpw : List.Pairwise (· < ·) (runCycles onAdd (RunState.init c0 s0) cycles).items := by
    rw [hitems]
    exact List.pairwise_lt_range' c0 _
  exact ⟨hitems, hpw, fun sub hsub => List.Pairwise.sublist hsub hpw⟩

/-- Witness: three requests over two drain cycles starting at seqno 1 are
assigned seqnos 1, 2, 3 in processing order. -/
theorem C6_seqnos_strictly_increasing_witness :
    (runCycles (fun (s : Unit) (_ : Entry) => some s) (RunState.init 1 ()) c6cycles).items
        = List.range' 1 3 ∧
    List.Pairwise (· < ·)
      (runCycles (fun (s : Unit) (_ : Entry) => some s) (RunState.init 1 ()) c6cycles).items := by
  have h := C6_seqnos_strictly_increasing Unit (fun s _ => some s) (fun _ _ => rfl)
      c6cycles 1 () (by norm_num [U64SIZE]) (by norm_num [U64SIZE, c6cycles])
  refine ⟨?_, h.2.1⟩
  have h1 := h.1
  simpa [c6cycles] using h1

/-- A drain loop that completed its first `ops1` requests without error
continues with the remaining requests from the state it reached. -/
lemma processReqs_append_ok {S : Type} (onAdd : S → Entry → Option S) :
    ∀ (ops1 : List (List Nat)) (rs : RunState S) (ops2 : List (List Nat)),
      (processReqs onAdd rs ops1).ok = true →
      processReqs onAdd rs (ops1 ++ ops2)
        = processReqs onAdd (processReqs onAdd rs ops1) ops2 := by
  intro ops1
  induction ops1 with
  | nil => intro rs ops2 _; rfl
  | cons op rest ih =>
    intro rs ops2 hok
    cases ho : onAdd rs.state (Entry.new rs.counter op) with
    | none =>
      rw [show processReqs onAdd rs (op :: rest)
            = { rs with counter := (rs.counter + 1) % U64SIZE, ok := false } by
          simp [processReqs, fetch_add_1, ho]] at hok
      simp at hok
    | some s' =>
      have hstep : ∀ tail, processReqs onAdd rs (op :: tail)
          = processReqs onAdd
              { rs with
                  counter := (rs.counter + 1) % U64SIZE
                  state := s'
                  entries := rs.entries ++ [Entry.new rs.counter op]
                  items := rs.items ++ [rs.counter] } tail := by
        intro tail
        simp [processReqs, fetch_add_1, ho]
      rw [hstep rest] at hok
      rw [show (op :: rest) ++ ops2 = op :: (rest ++ ops2) from rfl, hstep (rest ++ ops2),
        hstep rest]
      exact ih _ ops2 hok

/-- C8: the counter is advanced by `fetch_add` before the fallible
`add_entry` call.  If the first `i - 1` requests of a drain vector succeed
and the callback fails on the `i`-th, the cycle aborts with the counter
advanced by `i`; the builder's entries and the reply items hold only the
seqnos `c0 … c0 + i - 2`, so the seqno consumed by the failing request is
never attached to any entry — a gap. -/
theorem C8_error_consumes_seqno :
    ∀ (S : Type) (onAdd : S → Entry → Option S) (c0 : Nat) (s0 : S)
      (ops1 : List (List Nat)) (op : List Nat) (ops2 : List (List Nat)),
      c0 < U64SIZE → c0 + ops1.length + 1 ≤ U64SIZE →
      (processReqs onAdd (RunState.init c0 s0) ops1).ok = true →
      onAdd (processReqs onAdd (RunState.init c0 s0) ops1).state
          (Entry.new (c0 + ops1.length) op) = none →
      (processReqs onAdd (RunState.init c0 s0) (ops1 ++ op :: ops2)).ok = false ∧
      (processReqs onAdd (RunState.init c0 s0) (ops1 ++ op :: ops2)).counter
          = (c0 + ops1.length + 1) % U64SIZE ∧
      (processReqs onAdd (RunState.init c0 s0) (ops1 ++ op :: ops2)).items
          = List.range' c0 ops1.length ∧
      (processReqs onAdd (RunState.init c0 s0) (ops1 ++ op :: ops2)).entries.map Entry.seqno
          = List.range' c0 ops1.length ∧
      (c0 + ops1.length) ∉
        (processReqs onAdd (RunState.init c0 s0) (ops1 ++ op :: ops2)).items := by
  intro S onAdd c0 s0 ops1 op ops2 hlt hle hok hfail
  have hspec := processReqs_ok_spec onAdd ops1 (RunState.init c0 s0) rfl hlt
    (show c0 + ops1.length ≤ U64SIZE by omega) hok
  have hinit : (RunState.init c0 s0 : RunState S).counter = c0 := rfl
  have hcounter : (processReqs onAdd (RunState.init c0 s0) ops1).counter
      = c0 + ops1.length := by
    rw [hspec.2.2, hinit]
    exact Nat.mod_eq_of_lt (by omega)
  have happ := processReqs_append_ok onAdd ops1 (RunState.init c0 s0) (op :: ops2) hok
  have hfail' : onAdd (processReqs onAdd (RunState.init c0 s0) ops1).state
      (Entry.new (processReqs onAdd (RunState.init c0 s0) ops1).counter op) = none := by
    rw [hcounter]
    exact hfail
  have hone : processReqs onAdd (processReqs onAdd (RunState.init c0 s0) ops1) (op :: ops2)
      = { processReqs onAdd (RunState.init c0 s0) ops1 with
            counter := ((processReqs onAdd (RunState.init c0 s0) ops1).counter + 1) % U64SIZE
            ok := false } := by
    simp [processReqs, fetch_add_1, hfail']
  rw [happ, hone]
  have hitems : (processReqs onAdd (RunState.init c0 s0) ops1).items
      = List.range' c0 ops1.length := by
    simpa [RunState.init] using hspec.1
  have hentries : (processReqs onAdd (RunState.init c0 s0) ops1).entries.map Entry.seqno
      = List.range' c0 ops1.length := by
    simpa [RunState.init] using hspec.2.1
  refine ⟨rfl, ?_, ?_, ?_, ?_⟩
  · simp [hcounter]
  · simpa using hitems
  · simpa using hentries
  · simp [hitems, List.mem_range']

/-- Witness: three requests with a callback that errors on seqno 2; the
first request gets seqno 1, the failing second request consumes seqno 2, the
loop aborts with the counter at 3 and seqno 2 attached to no entry. -/
theorem C8_error_consumes_seqno_witness :
    (processReqs c8onAdd (RunState.init 1 ()) ([[5]] ++ [6] :: [[7]])).ok = false ∧
    (processReqs c8onAdd (RunState.init 1 ()) ([[5]] ++ [6] :: [[7]])).counter
        = (1 + 1 + 1) % U64SIZE ∧
    (processReqs c8onAdd (RunState.init 1 ()) ([[5]] ++ [6] :: [[7]])).items
        = List.range' 1 1 ∧
    (processReqs c8onAdd (RunState.init 1 ()) ([[5]] ++ [6] :: [[7]])).entries.map Entry.seqno
        = List.range' 1 1 ∧
    (1 + 1) ∉ (processReqs c8onAdd (RunState.init 1 ()) ([[5]] ++ [6] :: [[7]])).items := by
  have h := C8_error_consumes_seqno Unit c8onAdd 1 () [[5]] [6] [[7]]
    (by norm_num [U64SIZE]) (by norm_num [U64SIZE]) rfl rfl
  simpa using h

end Wral
